import Mathlib

/-!
Verification of the GeoTeacherAI vector-graphics editor
(`src/components/DrawingCanvas.tsx`, `src/services/geminiService.ts`).

Coordinates are modelled as rationals (`ℚ`); SVG elements become a structure
holding the kind-specific intrinsic geometry, the persisted `data-*` transform
attributes and the style attributes that the editor reads and writes.
-/

namespace GeoTeacher

/-- The `TransformData` record of `DrawingCanvas.tsx`:
`{tx, ty, rotation (degrees), cx, cy (rotation center)}`. -/
structure TransformData where
  tx : ℚ
  ty : ℚ
  rotation : ℚ
  cx : ℚ
  cy : ℚ
deriving DecidableEq

/-- Intrinsic geometry of an SVG element, one constructor per tag handled by
`parseControlPoints` / `updateElementShape`.  The `points` attribute of
polygons/polylines and the `M`/`L` commands of paths are modelled as the list
of coordinate pairs they encode; a path's trailing `Z` is the `closed` flag. -/
inductive Geom where
  | line (x1 y1 x2 y2 : ℚ)
  | circle (cx cy r : ℚ)
  | ellipse (cx cy rx ry : ℚ)
  | rect (x y width height : ℚ)
  | polygon (pts : List (ℚ × ℚ))
  | polyline (pts : List (ℚ × ℚ))
  | path (pts : List (ℚ × ℚ)) (closed : Bool)
  | text (x y : ℚ)
deriving DecidableEq

/-- The rendered `transform` attribute string built by `setElementTransform`:
always a `translate(tx, ty)`, followed by `rotate(rotation, cx, cy)` only when
the rotation is non-zero. -/
inductive TransformStr where
  | translateOnly (tx ty : ℚ)
  | translateRotate (tx ty rotation cx cy : ℚ)
deriving DecidableEq

/-- A live SVG element: its intrinsic geometry, the five persisted `data-*`
transform attributes (`none` = attribute absent), the rendered `transform`
attribute, and the style attributes touched by the editor.  `styleDash`
models `el.style.strokeDasharray` (empty/absent are both falsy in the JS
dash test). -/
structure Elem where
  id : Nat
  geom : Geom
  dataTx : Option ℚ
  dataTy : Option ℚ
  dataRotation : Option ℚ
  dataCx : Option ℚ
  dataCy : Option ℚ
  transformAttr : Option TransformStr
  stroke : Option String
  strokeWidth : Option String
  fill : Option String
  dash : Option String
  styleDash : Option String
deriving DecidableEq

/-- An element with the given id and geometry and no other attributes set. -/
def plainElem (id : Nat) (g : Geom) : Elem :=
  { id := id, geom := g, dataTx := none, dataTy := none, dataRotation := none,
    dataCx := none, dataCy := none, transformAttr := none, stroke := none,
    strokeWidth := none, fill := none, dash := none, styleDash := none }

/-- `getElementTransform` (DrawingCanvas.tsx): reads the five `data-*`
attributes, each defaulting to `0` when absent (`parseFloat(attr || '0')`). -/
def getElementTransform (el : Elem) : TransformData :=
  { tx := el.dataTx.getD 0, ty := el.dataTy.getD 0,
    rotation := el.dataRotation.getD 0,
    cx := el.dataCx.getD 0, cy := el.dataCy.getD 0 }

/-- `setElementTransform` (DrawingCanvas.tsx): persists all five fields as
`data-*` attributes and rebuilds the `transform` attribute — a translate,
plus a rotate about `(cx, cy)` appended only when `rotation !== 0`. -/
def setElementTransform (el : Elem) (data : TransformData) : Elem :=
  { el with
    dataTx := some data.tx, dataTy := some data.ty,
    dataRotation := some data.rotation,
    dataCx := some data.cx, dataCy := some data.cy,
    transformAttr := some
      (if data.rotation ≠ 0 then
        TransformStr.translateRotate data.tx data.ty data.rotation data.cx data.cy
      else
        TransformStr.translateOnly data.tx data.ty) }

/-- Control-point kinds of the `ControlPoint` interface. -/
inductive CPType where
  | vertex
  | center
  | radius
  | radiusX
  | radiusY
  | resize
deriving DecidableEq

/-- The `ControlPoint` record `{x, y, id, type}`. -/
structure ControlPoint where
  x : ℚ
  y : ℚ
  id : Nat
  type : CPType
deriving DecidableEq

/-- `parseControlPoints` (DrawingCanvas.tsx): kind-specific extraction of the
control points from an element's intrinsic (pre-transform) attributes. -/
def parseControlPoints (el : Elem) : List ControlPoint :=
  match el.geom with
  | .line x1 y1 x2 y2 =>
      [⟨x1, y1, 0, .vertex⟩, ⟨x2, y2, 1, .vertex⟩]
  | .circle cx cy r =>
      [⟨cx, cy, 0, .center⟩, ⟨cx + r, cy, 1, .radius⟩]
  | .ellipse cx cy rx ry =>
      [⟨cx, cy, 0, .center⟩, ⟨cx + rx, cy, 1, .radiusX⟩, ⟨cx, cy + ry, 2, .radiusY⟩]
  | .rect x y w h =>
      [⟨x, y, 0, .resize⟩, ⟨x + w, y + h, 1, .resize⟩]
  | .polygon pts =>
      pts.mapIdx fun i p => ⟨p.1, p.2, i, .vertex⟩
  | .polyline pts =>
      pts.mapIdx fun i p => ⟨p.1, p.2, i, .vertex⟩
  | .path pts _ =>
      pts.mapIdx fun i p => ⟨p.1, p.2, i, .vertex⟩
  | .text x y =>
      [⟨x, y, 0, .center⟩]

/-- `updateElementShape` (DrawingCanvas.tsx): kind-specific mutation of the
intrinsic geometry from a moved control point.  `sqrtFn` stands for the
host's `Math.sqrt`, used only by the circle radius handle (its value is
irrelevant to every other branch).  For rectangles the edit is applied only
when both the new width and the new height are strictly positive, otherwise
the attributes are left unchanged. -/
def updateElementShape (sqrtFn : ℚ → ℚ) (g : Geom) (pointIndex : Nat)
    (newX newY : ℚ) : Geom :=
  match g with
  | .line x1 y1 x2 y2 =>
      if pointIndex = 0 then .line newX newY x2 y2 else .line x1 y1 newX newY
  | .circle cx cy r =>
      if pointIndex = 0 then .circle newX newY r
      else .circle cx cy (sqrtFn ((newX - cx) ^ 2 + (newY - cy) ^ 2))
  | .ellipse cx cy rx ry =>
      if pointIndex = 0 then .ellipse newX newY rx ry
      else if pointIndex = 1 then .ellipse cx cy |newX - cx| ry
      else if pointIndex = 2 then .ellipse cx cy rx |newY - cy|
      else .ellipse cx cy rx ry
  | .rect x y w h =>
      if pointIndex = 0 then
        let newW := (x + w) - newX
        let newH := (y + h) - newY
        if 0 < newW ∧ 0 < newH then .rect newX newY newW newH else .rect x y w h
      else
        let newW := newX - x
        let newH := newY - y
        if 0 < newW ∧ 0 < newH then .rect x y newW newH else .rect x y w h
  | .polygon pts => .polygon (pts.set pointIndex (newX, newY))
  | .polyline pts => .polyline (pts.set pointIndex (newX, newY))
  | .path pts closed => .path (pts.set pointIndex (newX, newY)) closed
  | .text _ _ => .text newX newY

/-- The `dragging-move` update of `handleMouseMove` (DrawingCanvas.tsx):
for every selected element with its transform captured at gesture start,
write back the captured transform with the translate shifted by the
document-space delta `(dx, dy)`. -/
def moveDragUpdate (captured : List (Elem × TransformData)) (dx dy : ℚ) :
    List Elem :=
  captured.map fun p =>
    setElementTransform p.1 { p.2 with tx := p.2.tx + dx, ty := p.2.ty + dy }

/-- The multi-selection update of `handleMouseDownCanvas` (DrawingCanvas.tsx):
with Ctrl/Cmd held, clicking a selected shape removes it and clicking an
unselected one appends it; without the modifier the selection collapses to
the clicked shape only when it was not already selected. -/
def updateSelection (sel : List Nat) (target : Nat) (isCtrl : Bool) :
    List Nat :=
  if isCtrl then
    if target ∈ sel then sel.filter (fun x => x ≠ target)
    else sel ++ [target]
  else
    if target ∈ sel then sel else [target]

/-- The dash test of `handleToggleDash` on one attribute value: a string
attribute counts as dashed when it is present, non-empty (JS truthiness) and
not `"none"`. -/
def isDashedStr (o : Option String) : Bool :=
  match o with
  | none => false
  | some s => !(s = "") && !(s = "none")

/-- `const isDashed = (attrDash && attrDash !== 'none') || (styleDash && styleDash !== 'none')`. -/
def isDashed (el : Elem) : Bool :=
  isDashedStr el.dash || isDashedStr el.styleDash

/-- The per-element body of `handleToggleDash`: a dashed element gets
`stroke-dasharray` (attribute and style) set to `"none"`, a solid one gets
`"4 4"`. -/
def toggleDash (el : Elem) : Elem :=
  if isDashed el then { el with dash := some "none", styleDash := some "none" }
  else { el with dash := some "4 4", styleDash := some "4 4" }

/-- `Math.abs` on the rational coordinate model. -/
def ratAbs (q : ℚ) : ℚ := if q < 0 then -q else q

/-- The tiny-shape test of `handleMouseUp`: near-zero radius for circles,
near-zero `rx` or `ry` for ellipses, width below 1 for rectangles, and both
coordinate extents below 1 for lines. -/
def isTiny (el : Elem) : Bool :=
  match el.geom with
  | .circle _ _ r => r < 1
  | .ellipse _ _ rx ry => rx < 1 || ry < 1
  | .rect _ _ w _ => w < 1
  | .line x1 y1 x2 y2 => ratAbs (x1 - x2) < 1 && ratAbs (y1 - y2) < 1
  | _ => false

/-- The line created on pointer-down with the line tool: both endpoints at
the down-point, stroke in the current color, width 2, no fill. -/
def newLineElem (id : Nat) (color : String) (px py : ℚ) : Elem :=
  { id := id, geom := .line px py px py,
    dataTx := none, dataTy := none, dataRotation := none,
    dataCx := none, dataCy := none, transformAttr := none,
    stroke := some color, strokeWidth := some "2", fill := some "none",
    dash := none, styleDash := none }

/-- The line branch of `handleMouseMove` while drawing (without the shift
45°-snap, which involves transcendental functions): the second endpoint
follows the pointer. -/
def growLine (el : Elem) (qx qy : ℚ) : Elem :=
  match el.geom with
  | .line x1 y1 _ _ => { el with geom := .line x1 y1 qx qy }
  | _ => el

/-- The editor state relevant to selection, control points and history:
the live document (`doc`, as the children of the mounted `<svg>`), the
ordered selection (element ids), the derived control points, and the
history snapshots with the current index (initially `-1`).  A snapshot is
the serialized document, modelled by the document value itself. -/
structure EditorState where
  doc : List Elem
  selection : List Nat
  cps : List ControlPoint
  history : List (List Elem)
  index : Int
deriving DecidableEq

/-- `addToHistory` (DrawingCanvas.tsx): truncate the snapshots after the
current index (`prev.slice(0, historyIndex + 1)`), append the serialized
live document, and advance the index. -/
def addToHistory (s : EditorState) : EditorState :=
  { s with history := s.history.take (s.index + 1).toNat ++ [s.doc],
           index := s.index + 1 }

/-- One committed edit: the document is replaced by the edit's result `d`
and `addToHistory` records it. -/
def commitEdit (s : EditorState) (d : List Elem) : EditorState :=
  addToHistory { s with doc := d }

/-- A sequence of committed edits, one `commitEdit` per produced document. -/
def commitEdits (s : EditorState) (ds : List (List Elem)) : EditorState :=
  ds.foldl commitEdit s

/-- `handleUndo`: a no-op unless `historyIndex > 0`; otherwise decrement the
index and restore that snapshot (`restoreState` replaces the document and
clears the selection and the control points). -/
def handleUndo (s : EditorState) : EditorState :=
  if 0 < s.index then
    { s with index := s.index - 1,
             doc := s.history.getD (s.index - 1).toNat [],
             selection := [], cps := [] }
  else s

/-- `handleRedo`: a no-op unless the index is below the last snapshot;
otherwise increment the index and restore that snapshot with the same
clearing behavior. -/
def handleRedo (s : EditorState) : EditorState :=
  if s.index < (s.history.length : Int) - 1 then
    { s with index := s.index + 1,
             doc := s.history.getD (s.index + 1).toNat [],
             selection := [], cps := [] }
  else s

/-- `undo` iterated `n` times. -/
def undoN : Nat → EditorState → EditorState
  | 0, s => s
  | n + 1, s => undoN n (handleUndo s)

/-- `redo` iterated `n` times. -/
def redoN : Nat → EditorState → EditorState
  | 0, s => s
  | n + 1, s => redoN n (handleRedo s)

/-- The history-state invariant once at least one snapshot exists: the index
is a valid position in the snapshot list. -/
def HistInv (s : EditorState) : Prop :=
  0 ≤ s.index ∧ s.index < s.history.length

/-- Control points for a selection: derived from the selected shape when the
selection holds exactly one element, empty otherwise (the
`newSelection.length === 1` branch of `handleMouseDownCanvas`). -/
def cpsFor (doc : List Elem) (sel : List Nat) : List ControlPoint :=
  match sel with
  | [target] =>
      match doc.find? (fun e => e.id = target) with
      | some e => parseControlPoints e
      | none => []
  | _ => []

/-- The pointer/keyboard operations that change the selection or the
document: clicking a shape with the select tool (with or without the
multi-select modifier), clicking empty canvas, a pointer-down that starts
drawing, releasing a drawn shape, a vertex drag step, deleting the
selection, and undo/redo. -/
inductive EditorOp where
  | selectClick (target : Nat) (ctrl : Bool)
  | clickEmpty
  | startDraw
  | finishDraw (el : Elem)
  | vertexDrag (idx : Nat) (nx ny : ℚ)
  | deleteSel
  | undoOp
  | redoOp
deriving DecidableEq

/-- One step of the interaction state machine, following the handlers of
`DrawingCanvas.tsx`:
* `selectClick` hits a shape: update the selection (§ multi-select logic),
  then populate the control points from the single selected shape or clear
  them; a click that hits nothing clears selection and control points;
* `startDraw` (pointer-down with a drawing tool) deselects everything;
* `finishDraw` (pointer-up while drawing) removes a tiny pending shape,
  otherwise appends it, selects it, derives its control points and commits;
* `vertexDrag` (pointer-move in vertex mode, guarded by a single-element
  selection) applies the control-point edit and refreshes the control points;
* `deleteSel` removes every selected shape, clears selection state and
  commits;
* `undoOp`/`redoOp` restore snapshots, clearing selection and control
  points. -/
def applyOp (sqrtFn : ℚ → ℚ) (s : EditorState) : EditorOp → EditorState
  | .selectClick target ctrl =>
      if (s.doc.find? (fun e => e.id = target)).isSome then
        let newSel := updateSelection s.selection target ctrl
        { s with selection := newSel, cps := cpsFor s.doc newSel }
      else
        { s with selection := [], cps := [] }
  | .clickEmpty => { s with selection := [], cps := [] }
  | .startDraw => { s with selection := [], cps := [] }
  | .finishDraw el =>
      if isTiny el then s
      else
        addToHistory { s with doc := s.doc ++ [el], selection := [el.id],
                              cps := parseControlPoints el }
  | .vertexDrag idx nx ny =>
      match s.selection with
      | [target] =>
          match s.doc.find? (fun e => e.id = target) with
          | some e =>
              let e2 := { e with geom := updateElementShape sqrtFn e.geom idx nx ny }
              { s with doc := s.doc.map (fun o => if o.id = target then e2 else o),
                       cps := parseControlPoints e2 }
          | none => s
      | _ => s
  | .deleteSel =>
      if s.selection ≠ [] then
        addToHistory { s with doc := s.doc.filter (fun e => !(s.selection.contains e.id)),
                              selection := [], cps := [] }
      else s
  | .undoOp => handleUndo s
  | .redoOp => handleRedo s

/-- A sequence of interaction steps. -/
def applyOps (sqrtFn : ℚ → ℚ) (s : EditorState) (ops : List EditorOp) :
    EditorState :=
  ops.foldl (applyOp sqrtFn) s

/-- The state right after a generated document is mounted: nothing selected,
no control points, and the initial serialization as the only snapshot with
index `0`. -/
def initState (d0 : List Elem) : EditorState :=
  { doc := d0, selection := [], cps := [], history := [d0], index := 0 }

/-- `handleToggleDash` (DrawingCanvas.tsx): when the selection is non-empty,
toggle the dash state of every selected element and commit one history
snapshot for the whole invocation. -/
def handleToggleDash (s : EditorState) : EditorState :=
  if s.selection ≠ [] then
    addToHistory
      { s with doc := s.doc.map (fun e =>
          if e.id ∈ s.selection then toggleDash e else e) }
  else s

/-- JS truthiness of an optional string: `undefined`/absent and the empty
string are falsy. -/
def truthyStr : Option String → Bool
  | none => false
  | some s => !(s = "")

/-- Fuel-indexed body of `replaceAll`; the fuel starts at the text length so
it never runs out (each step consumes at least one character when the
pattern is non-empty). -/
def replaceAllAux (pat rep : List Char) : Nat → List Char → List Char
  | 0, l => l
  | fuel + 1, l =>
      match l with
      | [] => []
      | c :: rest =>
          if pat.isPrefixOf l && !pat.isEmpty then
            rep ++ replaceAllAux pat rep fuel (l.drop pat.length)
          else
            c :: replaceAllAux pat rep fuel rest

/-- JS `String.prototype.replace` with a global pattern: replace every
non-overlapping occurrence of `pat` left to right, never rescanning the
replacement text. -/
def replaceAll (pat rep l : List Char) : List Char :=
  replaceAllAux pat rep l.length l

/-- JS `String.prototype.trim`: strip whitespace from both ends. -/
def jsTrim (l : List Char) : List Char :=
  ((l.dropWhile Char.isWhitespace).reverse.dropWhile Char.isWhitespace).reverse

/-- The code-fence stripping of `generateGeometrySvg`:
`text.replace(/```xml/g, '').replace(/```svg/g, '').replace(/```/g, '').trim()`. -/
def cleanFences (l : List Char) : List Char :=
  jsTrim (replaceAll "```".data []
    (replaceAll "```svg".data [] (replaceAll "```xml".data [] l)))

/-- JS `String.prototype.indexOf` restricted to a non-empty needle: the index
of the first occurrence of `pat`, or `none` when there is none (`-1`). -/
def findSub (pat : List Char) : List Char → Option Nat
  | [] => none
  | c :: rest =>
      if pat.isPrefixOf (c :: rest) then some 0
      else (findSub pat rest).map (· + 1)

/-- The index of the last occurrence of `pat` (JS `lastIndexOf`); used only
to state what the specification's "last closing root tag" extraction would
return. -/
def findSubLast (pat : List Char) : List Char → Option Nat
  | [] => none
  | c :: rest =>
      match findSubLast pat rest with
      | some i => some (i + 1)
      | none => if pat.isPrefixOf (c :: rest) then some 0 else none

/-- JS `String.prototype.substring`: indices are swapped when out of order
and clamped to the string length. -/
def jsSubstring (l : List Char) (a b : Nat) : List Char :=
  (l.take (max a b)).drop (min a b)

/-- The opening root tag `"<svg"` searched by `generateGeometrySvg`. -/
def svgOpenTag : List Char := "<svg".data

/-- The closing root tag `"</svg>"` searched by `generateGeometrySvg`. -/
def svgCloseTag : List Char := "</svg>".data

/-- Error message when no API key is configured. -/
def keyErrorMsg : String := "Vui lòng nhập Gemini API Key để sử dụng tính năng này."

/-- Error message when the AI response text is absent or empty. -/
def emptyErrorMsg : String := "Không nhận được phản hồi từ AI."

/-- Error message when no `<svg> … </svg>` pair can be found. -/
def invalidErrorMsg : String := "AI không trả về mã SVG hợp lệ. Vui lòng thử lại."

/-- The response post-processing of `generateGeometrySvg`
(geminiService.ts, lines 98-108): strip code fences and trim; return the
text unchanged when it already starts with `<svg` and ends with `</svg>`;
otherwise cut `text.substring(text.indexOf('<svg'), text.indexOf('</svg>') + 6)`
when both tags occur, and fail otherwise. -/
def extractSvgText (raw : List Char) : Except String (List Char) :=
  let text := cleanFences raw
  if svgOpenTag.isPrefixOf text && svgCloseTag.isSuffixOf text then .ok text
  else
    match findSub svgOpenTag text, findSub svgCloseTag text with
    | some si, some ei => .ok (jsSubstring text si (ei + 6))
    | some _, none => .error invalidErrorMsg
    | none, _ => .error invalidErrorMsg

/-- `generateGeometrySvg` at its decision points: the effective key is the
user key when truthy, else the environment key; a falsy effective key fails
before any call; the upstream call is abstracted into its returned
`response.text` (`none` = absent), which fails when falsy; otherwise the
text goes through `extractSvgText`. -/
def processResponse (userApiKey envApiKey : Option String)
    (responseText : Option String) : Except String String :=
  let effectiveApiKey := if truthyStr userApiKey then userApiKey else envApiKey
  if !truthyStr effectiveApiKey then .error keyErrorMsg
  else
    match responseText with
    | none => .error emptyErrorMsg
    | some t =>
        if t = "" then .error emptyErrorMsg
        else (extractSvgText t.data).map String.mk

/-- Modelled from the spec: the extraction the specification describes —
"the substring between the first opening and last closing root tag"
(inclusive of both), after the same fence stripping.  Stated only to be
compared against `extractSvgText`, which the source implements with the
FIRST closing tag. -/
def specExtractFirstToLast (raw : List Char) : Option (List Char) :=
  let text := cleanFences raw
  match findSub svgOpenTag text, findSubLast svgCloseTag text with
  | some si, some ei => some ((text.take (ei + 6)).drop si)
  | _, _ => none

/-! ## Theorems -/

/-- Claim C3: a move drag by document-space delta `(dx, dy)` sets each
captured shape's applied translate to exactly the captured translate plus
the delta, leaves rotation and pivot at their captured values, and changes
no intrinsic geometry attribute. -/
theorem move_drag_translates_only (captured : List (Elem × TransformData))
    (dx dy : ℚ) (i : Nat) (el : Elem) (t : TransformData)
    (h : captured[i]? = some (el, t)) :
    ∃ el', (moveDragUpdate captured dx dy)[i]? = some el'
      ∧ getElementTransform el' =
          { tx := t.tx + dx, ty := t.ty + dy, rotation := t.rotation,
            cx := t.cx, cy := t.cy }
      ∧ el'.geom = el.geom ∧ el'.id = el.id := by
  refine ⟨setElementTransform el { t with tx := t.tx + dx, ty := t.ty + dy },
    ?_, rfl, rfl, rfl⟩
  simp [moveDragUpdate, List.getElem?_map, h]

/-- A captured selection of one rectangle, used to witness the move-drag
theorem. -/
def sampleCaptured : List (Elem × TransformData) :=
  [(plainElem 0 (.rect 1 2 3 4), ⟨5, 6, 7, 8, 9⟩)]

/-- Witness for `move_drag_translates_only` on a concrete capture. -/
theorem move_drag_translates_only_witness :
    sampleCaptured[0]? = some (plainElem 0 (.rect 1 2 3 4), ⟨5, 6, 7, 8, 9⟩)
    ∧ ∃ el', (moveDragUpdate sampleCaptured 10 20)[0]? = some el'
      ∧ getElementTransform el' = { tx := 15, ty := 26, rotation := 7, cx := 8, cy := 9 }
      ∧ el'.geom = (plainElem 0 (.rect 1 2 3 4)).geom
      ∧ el'.id = (plainElem 0 (.rect 1 2 3 4)).id := by
  refine ⟨rfl, ?_⟩
  have h := move_drag_translates_only sampleCaptured 10 20 0
    (plainElem 0 (.rect 1 2 3 4)) ⟨5, 6, 7, 8, 9⟩ rfl
  norm_num at h
  exact h

/-- Claim C4: a control-point edit on a rectangle with positive width and
height never inverts it — the result is still a rectangle with strictly
positive width and height (an inverting edit leaves the attributes
unchanged); in particular dragging the top-left handle of
`{x:10, y:10, w:50, h:50}` to `(80, 10)` changes nothing. -/
theorem rect_resize_never_inverts (sqrtFn : ℚ → ℚ) (x y w h : ℚ)
    (hw : 0 < w) (hh : 0 < h) (idx : Nat) (nx ny : ℚ) :
    (∃ x2 y2 w2 h2,
        updateElementShape sqrtFn (.rect x y w h) idx nx ny = .rect x2 y2 w2 h2
        ∧ 0 < w2 ∧ 0 < h2)
    ∧ updateElementShape sqrtFn (.rect 10 10 50 50) 0 80 10
        = .rect 10 10 50 50 := by
  constructor
  · have hred : updateElementShape sqrtFn (.rect x y w h) idx nx ny
        = if idx = 0 then
            (if 0 < (x + w) - nx ∧ 0 < (y + h) - ny
             then Geom.rect nx ny ((x + w) - nx) ((y + h) - ny)
             else Geom.rect x y w h)
          else
            (if 0 < nx - x ∧ 0 < ny - y
             then Geom.rect x y (nx - x) (ny - y)
             else Geom.rect x y w h) := rfl
    rw [hred]
    by_cases h0 : idx = 0
    · rw [if_pos h0]
      by_cases hc : 0 < (x + w) - nx ∧ 0 < (y + h) - ny
      · rw [if_pos hc]; exact ⟨_, _, _, _, rfl, hc.1, hc.2⟩
      · rw [if_neg hc]; exact ⟨_, _, _, _, rfl, hw, hh⟩
    · rw [if_neg h0]
      by_cases hc : 0 < nx - x ∧ 0 < ny - y
      · rw [if_pos hc]; exact ⟨_, _, _, _, rfl, hc.1, hc.2⟩
      · rw [if_neg hc]; exact ⟨_, _, _, _, rfl, hw, hh⟩
  · norm_num [updateElementShape]

/-- Witness for `rect_resize_never_inverts` on a concrete rectangle. -/
theorem rect_resize_never_inverts_witness :
    (0 : ℚ) < 5 ∧ (0 : ℚ) < 5
    ∧ ((∃ x2 y2 w2 h2,
        updateElementShape (fun q => q) (.rect 0 0 5 5) 1 3 3 = .rect x2 y2 w2 h2
        ∧ 0 < w2 ∧ 0 < h2)
      ∧ updateElementShape (fun q => q) (.rect 10 10 50 50) 0 80 10
          = .rect 10 10 50 50) :=
  ⟨by norm_num, by norm_num,
   rect_resize_never_inverts (fun q => q) 0 0 5 5 (by norm_num) (by norm_num) 1 3 3⟩

/-- Claim C5: writing a `TransformData` persists all five fields and derives
a rendered transform whose rotate component is present exactly when the
rotation is non-zero; reading an element with no persisted transform fields
yields all-zero data; and read-after-write is the identity. -/
theorem transform_store_roundtrip :
    (∀ (el : Elem) (d : TransformData),
        getElementTransform (setElementTransform el d) = d
        ∧ (setElementTransform el d).dataTx = some d.tx
        ∧ (setElementTransform el d).dataTy = some d.ty
        ∧ (setElementTransform el d).dataRotation = some d.rotation
        ∧ (setElementTransform el d).dataCx = some d.cx
        ∧ (setElementTransform el d).dataCy = some d.cy
        ∧ (setElementTransform el d).transformAttr = some
            (if d.rotation = 0 then TransformStr.translateOnly d.tx d.ty
             else TransformStr.translateRotate d.tx d.ty d.rotation d.cx d.cy))
    ∧ (∀ el : Elem,
        el.dataTx = none → el.dataTy = none → el.dataRotation = none →
        el.dataCx = none → el.dataCy = none →
        getElementTransform el = ⟨0, 0, 0, 0, 0⟩) := by
  constructor
  · intro el d
    refine ⟨rfl, rfl, rfl, rfl, rfl, rfl, ?_⟩
    by_cases hr : d.rotation = 0 <;> simp [setElementTransform, hr]
  · intro el h1 h2 h3 h4 h5
    simp [getElementTransform, h1, h2, h3, h4, h5]

/-- An element with no transform attributes, used to witness the transform
store theorem. -/
def noTransformElem : Elem := plainElem 3 (.line 0 0 5 5)

/-- Witness for `transform_store_roundtrip` on a concrete element. -/
theorem transform_store_roundtrip_witness :
    getElementTransform noTransformElem = ⟨0, 0, 0, 0, 0⟩
    ∧ getElementTransform (setElementTransform noTransformElem ⟨1, 2, 30, 4, 5⟩)
        = ⟨1, 2, 30, 4, 5⟩ :=
  ⟨transform_store_roundtrip.2 noTransformElem rfl rfl rfl rfl rfl,
   (transform_store_roundtrip.1 noTransformElem ⟨1, 2, 30, 4, 5⟩).1⟩

/-- Claim C10: with the multi-select modifier held, clicking an
already-selected shape removes exactly that shape, keeping the others in
their original order, and clicking an unselected shape appends it; a
duplicate-free selection stays duplicate-free. -/
theorem ctrl_click_toggle (sel : List Nat) (target : Nat) (hnd : sel.Nodup) :
    (target ∈ sel →
        updateSelection sel target true = sel.filter (fun x => x ≠ target)
        ∧ target ∉ updateSelection sel target true
        ∧ (∀ x ∈ sel, x ≠ target → x ∈ updateSelection sel target true)
        ∧ (updateSelection sel target true).Sublist sel
        ∧ (updateSelection sel target true).Nodup)
    ∧ (target ∉ sel →
        updateSelection sel target true = sel ++ [target]
        ∧ (updateSelection sel target true).Nodup) := by
  constructor
  · intro hm
    have he : updateSelection sel target true
        = sel.filter (fun x => x ≠ target) := by
      simp [updateSelection, hm]
    refine ⟨he, ?_, ?_, ?_, ?_⟩
    · rw [he]; simp
    · intro x hx hne; rw [he]; simp [hx, hne]
    · rw [he]; exact List.filter_sublist _
    · rw [he]; exact hnd.filter _
  · intro hm
    have he : updateSelection sel target true = sel ++ [target] := by
      simp [updateSelection, hm]
    refine ⟨he, ?_⟩
    rw [he]
    simp [List.nodup_append, hnd, hm]

/-- Witness for `ctrl_click_toggle` on a concrete selection. -/
theorem ctrl_click_toggle_witness :
    ([1, 2, 3] : List Nat).Nodup
    ∧ updateSelection [1, 2, 3] 2 true = [1, 3]
    ∧ updateSelection [1, 3] 2 true = [1, 3, 2] := by
  refine ⟨by decide, ?_, ?_⟩
  · have h := ((ctrl_click_toggle [1, 2, 3] 2 (by decide)).1 (by decide)).1
    rw [h]; decide
  · have h := ((ctrl_click_toggle [1, 3] 2 (by decide)).2 (by decide)).1
    rw [h]; rfl

/-- Claim C6: on pointer release, a pending shape below the minimum-visible
threshold is removed instead of committed; for a line the threshold is both
coordinate extents below 1, and the concrete line drawn from `(10, 10)` to
`(10.5, 10.3)` leaves the editor state (document, selection, history)
unchanged. -/
theorem tiny_shape_rejected (sqrtFn : ℚ → ℚ) :
    (∀ (el : Elem) (x1 y1 x2 y2 : ℚ), el.geom = .line x1 y1 x2 y2 →
        (isTiny el = true ↔ |x1 - x2| < 1 ∧ |y1 - y2| < 1))
    ∧ (∀ (s : EditorState) (el : Elem), isTiny el = true →
        applyOp sqrtFn s (.finishDraw el) = s)
    ∧ (∀ s : EditorState,
        applyOp sqrtFn s (.finishDraw
          (growLine (newLineElem 9 "#000000" 10 10) (21 / 2) (103 / 10))) = s) := by
  have habs : ∀ q : ℚ, ratAbs q = |q| := by
    intro q
    by_cases hq : q < 0
    · rw [ratAbs, if_pos hq, abs_of_neg hq]
    · rw [ratAbs, if_neg hq, abs_of_nonneg (le_of_not_lt hq)]
  refine ⟨?_, ?_, ?_⟩
  · intro el x1 y1 x2 y2 hg
    simp [isTiny, hg, habs]
  · intro s el ht
    simp [applyOp, ht]
  · intro s
    have ht : isTiny (growLine (newLineElem 9 "#000000" 10 10) (21 / 2) (103 / 10))
        = true := by with_unfolding_all decide
    simp [applyOp, ht]

/-- Witness for `tiny_shape_rejected`: the drawn line `(10,10)→(10.5,10.3)`
is tiny and releasing it leaves the freshly mounted empty document as it
was. -/
theorem tiny_shape_rejected_witness :
    isTiny (growLine (newLineElem 9 "#000000" 10 10) (21 / 2) (103 / 10)) = true
    ∧ applyOp (fun q => q) (initState [])
        (.finishDraw (growLine (newLineElem 9 "#000000" 10 10) (21 / 2) (103 / 10)))
        = initState [] :=
  ⟨by with_unfolding_all decide, (tiny_shape_rejected (fun q => q)).2.2 (initState [])⟩

/-- A non-empty control-point list forces a singleton selection
(`cpsFor` is empty unless the selection matches `[target]`). -/
theorem cpsFor_ne_nil_len (doc : List Elem) (sel : List Nat)
    (h : cpsFor doc sel ≠ []) : sel.length = 1 := by
  match sel with
  | [] => simp [cpsFor] at h
  | [_] => rfl
  | _ :: _ :: _ => simp [cpsFor] at h

/-- Every interaction step preserves "control points non-empty only when
exactly one shape is selected". -/
theorem cpInv_step (sqrtFn : ℚ → ℚ) (s : EditorState) (op : EditorOp)
    (h : s.cps ≠ [] → s.selection.length = 1) :
    (applyOp sqrtFn s op).cps ≠ [] →
    (applyOp sqrtFn s op).selection.length = 1 := by
  cases op with
  | selectClick target ctrl =>
      cases hf : s.doc.find? (fun e => e.id = target) with
      | some e =>
          intro hne
          have hcps : cpsFor s.doc (updateSelection s.selection target ctrl) ≠ [] := by
            simpa [applyOp, hf] using hne
          have hl := cpsFor_ne_nil_len _ _ hcps
          simpa [applyOp, hf] using hl
      | none =>
          intro hne
          simp [applyOp, hf] at hne
  | clickEmpty => intro hne; simp [applyOp] at hne
  | startDraw => intro hne; simp [applyOp] at hne
  | finishDraw el =>
      by_cases ht : isTiny el = true
      · simpa [applyOp, ht] using h
      · intro _
        simp [applyOp, addToHistory, ht]
  | vertexDrag idx nx ny =>
      cases hsel : s.selection with
      | nil => simpa [applyOp, hsel] using h
      | cons a tail =>
          cases htail : tail with
          | nil =>
              cases hf : s.doc.find? (fun e => e.id = a) with
              | some e =>
                  intro _
                  simp [applyOp, hsel, htail, hf]
              | none =>
                  intro _
                  simp [applyOp, hsel, htail, hf]
          | cons b rest => simpa [applyOp, hsel, htail] using h
  | deleteSel =>
      by_cases hs : s.selection ≠ []
      · intro hne
        simp [applyOp, addToHistory, hs] at hne
      · simpa [applyOp, hs] using h
  | undoOp =>
      by_cases hu : 0 < s.index
      · intro hne
        simp [applyOp, handleUndo, hu] at hne
      · simpa [applyOp, handleUndo, hu] using h
  | redoOp =>
      by_cases hr : s.index < (s.history.length : Int) - 1
      · intro hne
        simp [applyOp, handleRedo, hr] at hne
      · simpa [applyOp, handleRedo, hr] using h

/-- Claim C9: in every state reachable from a freshly mounted document, the
control-point list is non-empty only when exactly one shape is selected;
moreover a shape-hitting click always sets the control points to those
derived from the (single) new selection, and clicking empty canvas or
starting a draw clears them. -/
theorem cps_single_selection (sqrtFn : ℚ → ℚ) (d0 : List Elem)
    (ops : List EditorOp) :
    ((applyOps sqrtFn (initState d0) ops).cps ≠ []
      → (applyOps sqrtFn (initState d0) ops).selection.length = 1)
    ∧ (∀ (s : EditorState) (t : Nat) (c : Bool),
        (applyOp sqrtFn s (.selectClick t c)).cps
          = cpsFor (applyOp sqrtFn s (.selectClick t c)).doc
              (applyOp sqrtFn s (.selectClick t c)).selection)
    ∧ (∀ s : EditorState, (applyOp sqrtFn s .clickEmpty).cps = []
        ∧ (applyOp sqrtFn s .startDraw).cps = []) := by
  refine ⟨?_, ?_, ?_⟩
  · have main : ∀ (l : List EditorOp) (s : EditorState),
        (s.cps ≠ [] → s.selection.length = 1) →
        ((l.foldl (applyOp sqrtFn) s).cps ≠ []
          → (l.foldl (applyOp sqrtFn) s).selection.length = 1) := by
      intro l
      induction l with
      | nil => intro s hs; exact hs
      | cons op rest ih => intro s hs; exact ih _ (cpInv_step sqrtFn s op hs)
    simp only [applyOps]
    exact main ops (initState d0) (by intro hne; simp [initState] at hne)
  · intro s t c
    cases hf : s.doc.find? (fun e => e.id = t) with
    | some e => simp [applyOp, hf]
    | none => simp [applyOp, hf, cpsFor]
  · intro s
    exact ⟨rfl, rfl⟩

/-- A visibly sized drawn line used to witness the control-point
invariant. -/
def sampleDrawnLine : Elem := plainElem 5 (.line 0 0 10 10)

/-- Witness for `cps_single_selection`: after committing one drawn line the
control points are non-empty and the selection has exactly one shape. -/
theorem cps_single_selection_witness :
    (applyOps (fun q => q) (initState []) [.finishDraw sampleDrawnLine]).cps ≠ []
    ∧ (applyOps (fun q => q) (initState [])
        [.finishDraw sampleDrawnLine]).selection.length = 1 :=
  ⟨by with_unfolding_all decide,
   (cps_single_selection (fun q => q) [] [.finishDraw sampleDrawnLine]).1
     (by with_unfolding_all decide)⟩

/-- The index sits at the last snapshot. -/
def IsTop (s : EditorState) : Prop :=
  s.index = (s.history.length : Int) - 1

/-- Any commit from a valid history state lands on the last snapshot. -/
theorem commitEdit_index_last (s : EditorState) (d : List Elem)
    (h : HistInv s) :
    (commitEdit s d).index = ((commitEdit s d).history.length : Int) - 1 := by
  obtain ⟨h0, h1⟩ := h
  show s.index + 1
      = ((s.history.take (s.index + 1).toNat ++ [d]).length : Int) - 1
  rw [List.length_append, List.length_take]
  simp only [List.length_singleton]
  omega

/-- Committing preserves the history invariant. -/
theorem commitEdit_inv (s : EditorState) (d : List Elem) (h : HistInv s) :
    HistInv (commitEdit s d) := by
  obtain ⟨h0, h1⟩ := h
  constructor
  · show 0 ≤ s.index + 1
    omega
  · show s.index + 1 < ((s.history.take (s.index + 1).toNat ++ [d]).length : Int)
    rw [List.length_append, List.length_take]
    simp only [List.length_singleton]
    omega

/-- Undo preserves the history invariant. -/
theorem handleUndo_fields (s : EditorState) (hu : 0 < s.index) :
    (handleUndo s).index = s.index - 1
    ∧ (handleUndo s).history = s.history
    ∧ (handleUndo s).doc = s.history.getD (s.index - 1).toNat []
    ∧ (handleUndo s).selection = [] ∧ (handleUndo s).cps = [] := by
  simp [handleUndo, hu]

theorem handleUndo_inv (s : EditorState) (h : HistInv s) :
    HistInv (handleUndo s) := by
  obtain ⟨h0, h1⟩ := h
  by_cases hu : 0 < s.index
  · obtain ⟨f1, f2, _, _, _⟩ := handleUndo_fields s hu
    refine ⟨?_, ?_⟩
    · rw [f1]; omega
    · rw [f1, f2]; omega
  · simpa [handleUndo, hu] using ⟨h0, h1⟩

/-- Iterated undo preserves the history invariant. -/
theorem undoN_inv (n : Nat) (s : EditorState) (h : HistInv s) :
    HistInv (undoN n s) := by
  induction n generalizing s with
  | zero => exact h
  | succ n ih => exact ih _ (handleUndo_inv s h)

/-- Redo is a no-op when the index already sits at the last snapshot. -/
theorem handleRedo_noop_of_last (s : EditorState) (h : IsTop s) :
    handleRedo s = s := by
  rw [IsTop] at h
  simp [handleRedo, h]

/-- Claim C1: committing truncates the snapshots after the current index,
appends the new serialized document and moves the index to the new last
position; hence after `K ≥ 1` undos followed by one committed edit, redo is
a no-op. -/
theorem history_truncate_commit (s : EditorState) (d : List Elem)
    (hinv : HistInv s) (K : Nat) (hK : 1 ≤ K) (d2 : List Elem) :
    (commitEdit s d).history = s.history.take (s.index + 1).toNat ++ [d]
    ∧ (commitEdit s d).index = ((commitEdit s d).history.length : Int) - 1
    ∧ handleRedo (commitEdit (undoN K s) d2) = commitEdit (undoN K s) d2 := by
  refine ⟨rfl, commitEdit_index_last s d hinv, ?_⟩
  have hinv2 : HistInv (undoN K s) := undoN_inv K s hinv
  exact handleRedo_noop_of_last _ (commitEdit_index_last _ d2 hinv2)

/-- A loaded one-snapshot editor state used to witness the history
theorems. -/
def histSample : EditorState := initState [plainElem 0 (.text 1 2)]

/-- Witness for `history_truncate_commit` on a concrete state. -/
theorem history_truncate_commit_witness :
    HistInv histSample ∧ 1 ≤ 1
    ∧ ((commitEdit histSample []).history
        = histSample.history.take (histSample.index + 1).toNat ++ [[]]
      ∧ (commitEdit histSample []).index
          = ((commitEdit histSample []).history.length : Int) - 1
      ∧ handleRedo (commitEdit (undoN 1 histSample) [])
          = commitEdit (undoN 1 histSample) []) :=
  ⟨⟨by decide, by decide⟩, le_refl 1,
   history_truncate_commit histSample [] ⟨by decide, by decide⟩ 1 (le_refl 1) []⟩

/-- Committing from the top of the history appends without truncation. -/
theorem commitEdit_history_top (s : EditorState) (d : List Elem)
    (hinv : HistInv s) (htop : IsTop s) :
    (commitEdit s d).history = s.history ++ [d] := by
  obtain ⟨h0, _⟩ := hinv
  rw [IsTop] at htop
  have htake : (s.index + 1).toNat = s.history.length := by omega
  show s.history.take (s.index + 1).toNat ++ [d] = s.history ++ [d]
  rw [htake, List.take_length]

/-- A sequence of commits from the top of the history appends all produced
snapshots and moves the index past them. -/
theorem commitEdits_top_char (ds : List (List Elem)) :
    ∀ s : EditorState, HistInv s → IsTop s →
      (commitEdits s ds).history = s.history ++ ds
      ∧ (commitEdits s ds).index = s.index + ds.length := by
  induction ds with
  | nil =>
      intro s _ _
      constructor
      · show s.history = s.history ++ []
        rw [List.append_nil]
      · show s.index = s.index + ((0 : Nat) : Int)
        omega
  | cons d rest ih =>
      intro s h0 htop
      have h0' := commitEdit_inv s d h0
      have htop' : IsTop (commitEdit s d) := commitEdit_index_last s d h0
      have hh := commitEdit_history_top s d h0 htop
      have hstep : commitEdits s (d :: rest) = commitEdits (commitEdit s d) rest := rfl
      obtain ⟨ih1, ih2⟩ := ih (commitEdit s d) h0' htop'
      constructor
      · rw [hstep, ih1, hh, List.append_assoc]
        rfl
      · rw [hstep, ih2]
        show s.index + 1 + (rest.length : Int) = s.index + ((d :: rest).length : Int)
        rw [List.length_cons]
        push_cast
        ring

/-- Fields of `handleRedo` when the guard passes. -/
theorem handleRedo_fields (s : EditorState)
    (hr : s.index < (s.history.length : Int) - 1) :
    (handleRedo s).index = s.index + 1
    ∧ (handleRedo s).history = s.history
    ∧ (handleRedo s).doc = s.history.getD (s.index + 1).toNat []
    ∧ (handleRedo s).selection = [] ∧ (handleRedo s).cps = [] := by
  simp [handleRedo, hr]

/-- Undoing `n ≥ 1` times from index `i0 + n` walks back to index `i0` and
restores that snapshot. -/
theorem undoN_char (n : Nat) (hn : 1 ≤ n) :
    ∀ (s : EditorState) (i0 : Nat), s.index = (i0 : Int) + n →
      (i0 : Int) + n < s.history.length →
      (undoN n s).doc = s.history.getD i0 []
      ∧ (undoN n s).history = s.history
      ∧ (undoN n s).index = (i0 : Int) := by
  induction n with
  | zero => exact absurd hn (by omega)
  | succ n ih =>
      intro s i0 hidx hlt
      have hu : 0 < s.index := by omega
      obtain ⟨hf1, hf2, hf3, _, _⟩ := handleUndo_fields s hu
      by_cases hn0 : n = 0
      · subst hn0
        have hstep : undoN 1 s = handleUndo s := rfl
        have htn : (s.index - 1).toNat = i0 := by omega
        refine ⟨?_, ?_, ?_⟩
        · rw [hstep, hf3, htn]
        · rw [hstep, hf2]
        · rw [hstep, hf1, hidx]; push_cast; ring
      · have hn1 : 1 ≤ n := by omega
        have hidx' : (handleUndo s).index = (i0 : Int) + n := by
          rw [hf1, hidx]; push_cast; ring
        have hlt' : (i0 : Int) + n < (handleUndo s).history.length := by
          rw [hf2]; omega
        have hstep : undoN (n + 1) s = undoN n (handleUndo s) := rfl
        obtain ⟨r1, r2, r3⟩ := ih hn1 (handleUndo s) i0 hidx' hlt'
        exact ⟨by rw [hstep, r1, hf2], by rw [hstep, r2, hf2], by rw [hstep, r3]⟩

/-- Redoing `n ≥ 1` times from index `i0` walks forward to index `i0 + n`
and restores that snapshot. -/
theorem redoN_char (n : Nat) (hn : 1 ≤ n) :
    ∀ (s : EditorState) (i0 : Nat), s.index = (i0 : Int) →
      (i0 : Int) + n ≤ (s.history.length : Int) - 1 →
      (redoN n s).doc = s.history.getD (i0 + n) []
      ∧ (redoN n s).history = s.history
      ∧ (redoN n s).index = (i0 : Int) + n := by
  induction n with
  | zero => exact absurd hn (by omega)
  | succ n ih =>
      intro s i0 hidx hle
      have hr : s.index < (s.history.length : Int) - 1 := by omega
      obtain ⟨hf1, hf2, hf3, _, _⟩ := handleRedo_fields s hr
      by_cases hn0 : n = 0
      · subst hn0
        have hstep : redoN 1 s = handleRedo s := rfl
        have htn : (s.index + 1).toNat = i0 + 1 := by omega
        refine ⟨?_, ?_, ?_⟩
        · rw [hstep, hf3, htn]
        · rw [hstep, hf2]
        · rw [hstep, hf1, hidx]; push_cast; ring
      · have hn1 : 1 ≤ n := by omega
        have hidx' : (handleRedo s).index = ((i0 + 1 : Nat) : Int) := by
          rw [hf1, hidx]; push_cast; ring
        have hle' : ((i0 + 1 : Nat) : Int) + n ≤ ((handleRedo s).history.length : Int) - 1 := by
          rw [hf2]; push_cast at hle ⊢; omega
        have hstep : redoN (n + 1) s = redoN n (handleRedo s) := rfl
        obtain ⟨r1, r2, r3⟩ := ih hn1 (handleRedo s) (i0 + 1) hidx' hle'
        refine ⟨?_, ?_, ?_⟩
        · rw [hstep, r1, hf2]
          have : i0 + 1 + n = i0 + (n + 1) := by omega
          rw [this]
        · rw [hstep, r2, hf2]
        · rw [hstep, r3]; push_cast; ring

/-- Claim C2: after `N ≥ 1` committed edits, undoing `N` times and then
redoing `N` times restores the document whose serialization was recorded
right after the `N`-th edit (the last committed snapshot). -/
theorem undo_redo_restores (s : EditorState) (ds : List (List Elem))
    (hinv : HistInv s) (hne : ds ≠ []) :
    (redoN ds.length (undoN ds.length (commitEdits s ds))).doc
      = ds.getD (ds.length - 1) [] := by
  obtain ⟨h0, h1⟩ := hinv
  cases ds with
  | nil => exact absurd rfl hne
  | cons d rest =>
    have hinv1 : HistInv (commitEdit s d) := commitEdit_inv s d ⟨h0, h1⟩
    have htop1 : IsTop (commitEdit s d) := commitEdit_index_last s d ⟨h0, h1⟩
    obtain ⟨hch, hci⟩ := commitEdits_top_char rest (commitEdit s d) hinv1 htop1
    have hstep : commitEdits s (d :: rest) = commitEdits (commitEdit s d) rest := rfl
    set T := commitEdits (commitEdit s d) rest with hT
    set i0 : Nat := s.index.toNat with hi0
    set N : Nat := rest.length + 1 with hN
    have hA : (commitEdit s d).history
        = s.history.take (s.index + 1).toNat ++ [d] := rfl
    have hAlen : (s.history.take (s.index + 1).toNat).length = i0 + 1 := by
      rw [List.length_take]; omega
    have hThist : T.history = s.history.take (s.index + 1).toNat ++ (d :: rest) := by
      rw [hch, hA, List.append_assoc]
      rfl
    have hTlen : (T.history.length : Int) = (i0 : Int) + 1 + N := by
      rw [hThist, List.length_append, hAlen, List.length_cons, hN]
      push_cast
      ring
    have hTidx : T.index = (i0 : Int) + N := by
      rw [hci]
      show s.index + 1 + (rest.length : Int) = (i0 : Int) + N
      rw [hN]
      push_cast
      omega
    have hNlen : (d :: rest).length = N := by rw [hN, List.length_cons]
    have hN1 : 1 ≤ N := by omega
    have hlt : (i0 : Int) + N < T.history.length := by
      rw [hTlen, hN]; push_cast; omega
    obtain ⟨u1, u2, u3⟩ := undoN_char N hN1 T i0 hTidx hlt
    have hle : (i0 : Int) + N ≤ ((undoN N T).history.length : Int) - 1 := by
      rw [u2, hTlen, hN]; push_cast; omega
    obtain ⟨r1, _, _⟩ := redoN_char N hN1 (undoN N T) i0 u3 hle
    have hpos : i0 + N - (i0 + 1) = N - 1 := by omega
    rw [hNlen, hstep, r1, u2, hThist,
      List.getD_append_right _ _ _ _ (by rw [hAlen]; omega), hAlen, hpos]

/-- Witness for `undo_redo_restores`: one edit on the loaded sample state,
then undo and redo once. -/
theorem undo_redo_restores_witness :
    HistInv histSample
    ∧ ([[plainElem 1 (.text 3 4)]] : List (List Elem)) ≠ []
    ∧ (redoN 1 (undoN 1 (commitEdits histSample [[plainElem 1 (.text 3 4)]]))).doc
        = [plainElem 1 (.text 3 4)] :=
  ⟨⟨by decide, by decide⟩, by decide,
   undo_redo_restores histSample [[plainElem 1 (.text 3 4)]]
     ⟨by decide, by decide⟩ (by decide)⟩

/-- `toggleDash` never changes an element's identity. -/
theorem toggleDash_id (e : Elem) : (toggleDash e).id = e.id := by
  by_cases h : isDashed e = true <;> simp [toggleDash, h]

/-- `toggleDash` flips the dash state of every element. -/
theorem isDashed_toggleDash (e : Elem) :
    isDashed (toggleDash e) = !isDashed e := by
  by_cases h : isDashed e = true
  · simp only [toggleDash, if_pos h, h]
    rfl
  · simp only [toggleDash, if_neg h]
    rw [Bool.not_eq_true] at h
    rw [h]
    rfl

/-- An already dashed line element. -/
def dashedElem : Elem :=
  { plainElem 0 (.line 0 0 5 5) with dash := some "4 4" }

/-- An editor state whose single selected element is already dashed. -/
def dashCexState : EditorState :=
  { doc := [dashedElem], selection := [0], cps := [],
    history := [[dashedElem]], index := 0 }

/-- Counterexample to claim C8 as stated: the dash-toggle command does NOT
"apply the dashed pattern uniformly to every selected shape" — a selected
shape that is already dashed becomes solid.  On a selection consisting of
one dashed line, after `handleToggleDash` that shape is not dashed. -/
theorem toggle_dash_not_uniform_cex :
    ¬ (∀ e ∈ (handleToggleDash dashCexState).doc,
        e.id ∈ dashCexState.selection → isDashed e = true) := by
  decide

/-- Claim C8 (amended): for EVERY non-empty selection, `handleToggleDash`
toggles each selected shape's dash state individually (a solid shape
becomes dashed, an already-dashed one becomes solid), leaves every
unselected shape untouched, and performs exactly one history commit per
invocation — the history becomes the snapshots up to the current index plus
one new snapshot of the updated document, the selection is kept and the
index moves to the new snapshot (the last position, under the history
invariant); when the history was at its top it grows by exactly one
snapshot, and when every selected shape was solid all of them end up
dashed. -/
theorem toggle_dash_fanout (s : EditorState) (hsel : s.selection ≠ []) :
    (∀ (i : Nat) (e : Elem), s.doc[i]? = some e →
        (handleToggleDash s).doc[i]?
          = some (if e.id ∈ s.selection then toggleDash e else e))
    ∧ (∀ e : Elem, isDashed (toggleDash e) = !isDashed e)
    ∧ (∀ e ∈ s.doc, e.id ∉ s.selection → e ∈ (handleToggleDash s).doc)
    ∧ (handleToggleDash s).history
        = s.history.take (s.index + 1).toNat ++ [(handleToggleDash s).doc]
    ∧ (handleToggleDash s).selection = s.selection
    ∧ (handleToggleDash s).index = s.index + 1
    ∧ (HistInv s → (handleToggleDash s).index
        = ((handleToggleDash s).history.length : Int) - 1)
    ∧ (HistInv s → IsTop s →
        (handleToggleDash s).history.length = s.history.length + 1)
    ∧ ((∀ e ∈ s.doc, e.id ∈ s.selection → isDashed e = false) →
        ∀ e ∈ (handleToggleDash s).doc, e.id ∈ s.selection →
          isDashed e = true) := by
  have hD : handleToggleDash s
      = commitEdit s (s.doc.map (fun e =>
          if e.id ∈ s.selection then toggleDash e else e)) := by
    simp [handleToggleDash, hsel, commitEdit]
  refine ⟨?_, isDashed_toggleDash, ?_, ?_, ?_, ?_, ?_, ?_, ?_⟩
  · intro i e hmem
    rw [hD]
    show (s.doc.map (fun e =>
        if e.id ∈ s.selection then toggleDash e else e))[i]? = _
    rw [List.getElem?_map, hmem, Option.map_some']
  · intro e hmem hnot
    rw [hD]
    exact List.mem_map.mpr ⟨e, hmem, by rw [if_neg hnot]⟩
  · rw [hD]
    rfl
  · rw [hD]
    rfl
  · rw [hD]
    rfl
  · intro hinv
    rw [hD]
    exact commitEdit_index_last s _ hinv
  · intro hinv htop
    rw [hD, commitEdit_history_top s _ hinv htop, List.length_append]
    rfl
  · intro hsolid e hmem hid
    rw [hD] at hmem
    have hmem' : e ∈ s.doc.map (fun e =>
        if e.id ∈ s.selection then toggleDash e else e) := hmem
    obtain ⟨a, ha, hae⟩ := List.mem_map.mp hmem'
    by_cases hc : a.id ∈ s.selection
    · rw [if_pos hc] at hae
      rw [← hae, isDashed_toggleDash, hsolid a ha hc]
      rfl
    · rw [if_neg hc] at hae
      rw [← hae] at hid
      exact absurd hid hc

/-- Three solid shapes, all selected, with the initial snapshot recorded. -/
def threeSolidState : EditorState :=
  { doc := [plainElem 0 (.line 0 0 5 5), plainElem 1 (.rect 0 0 4 4),
            plainElem 2 (.circle 1 1 2)],
    selection := [0, 1, 2], cps := [],
    history := [[plainElem 0 (.line 0 0 5 5), plainElem 1 (.rect 0 0 4 4),
                 plainElem 2 (.circle 1 1 2)]],
    index := 0 }

/-- Witness for `toggle_dash_fanout`: with three solid shapes selected, one
invocation makes all three dashed and appends exactly one snapshot. -/
theorem toggle_dash_fanout_witness :
    (∀ e ∈ (handleToggleDash threeSolidState).doc,
        e.id ∈ threeSolidState.selection → isDashed e = true)
    ∧ (handleToggleDash threeSolidState).history.length
        = threeSolidState.history.length + 1 := by
  have h := toggle_dash_fanout threeSolidState (by decide)
  exact ⟨h.2.2.2.2.2.2.2.2 (by decide),
         h.2.2.2.2.2.2.2.1 ⟨by decide, by decide⟩
           (by show threeSolidState.index
                  = (threeSolidState.history.length : Int) - 1
               decide)⟩

/-- Counterexample to claim C7 as stated: the source extracts up to the
FIRST closing root tag (`text.indexOf('</svg>')`), not the last one.  On the
response `"x<svg>a</svg>b</svg>"` the code returns `"<svg>a</svg>"`, while
the substring between the first opening and the LAST closing root tag —
what the claim describes, computed by the spec-side
`specExtractFirstToLast` — is `"<svg>a</svg>b</svg>"`. -/
theorem svg_extract_first_not_last_cex :
    processResponse (some "k") none (some "x<svg>a</svg>b</svg>")
      = .ok "<svg>a</svg>"
    ∧ specExtractFirstToLast ("x<svg>a</svg>b</svg>" : String).data
        = some ("<svg>a</svg>b</svg>" : String).data
    ∧ ("<svg>a</svg>" : String) ≠ "<svg>a</svg>b</svg>" := by
  refine ⟨rfl, rfl, by decide⟩

/-- `findSub` is JS `indexOf`: the pattern occurs at the returned index and
at no earlier index. -/
theorem findSub_first (pat : List Char) :
    ∀ (l : List Char) (i : Nat), findSub pat l = some i →
      pat.isPrefixOf (l.drop i) = true
      ∧ ∀ j < i, pat.isPrefixOf (l.drop j) = false := by
  intro l
  induction l with
  | nil => intro i h; simp [findSub] at h
  | cons c rest ih =>
      intro i h
      by_cases hp : pat.isPrefixOf (c :: rest) = true
      · rw [findSub, if_pos hp] at h
        obtain rfl : (0 : Nat) = i := Option.some.inj h
        exact ⟨hp, fun j hj => absurd hj (Nat.not_lt_zero j)⟩
      · rw [findSub, if_neg hp] at h
        rw [Bool.not_eq_true] at hp
        obtain ⟨i', hi', rfl⟩ := Option.map_eq_some'.mp h
        obtain ⟨h1, h2⟩ := ih i' hi'
        refine ⟨h1, ?_⟩
        intro j hj
        cases j with
        | zero => simpa using hp
        | succ j' => simpa using h2 j' (Nat.lt_of_succ_lt_succ hj)

/-- Claim C7 (amended): the generation post-processing strips code-fence
wrapping; when the cleaned text does not already both start with the opening
root tag and end with the closing root tag, it returns exactly the JS
substring from the index of the FIRST opening tag to the end of the FIRST
closing tag (the claim said "last closing tag"); it fails with a
human-readable message when no credential is configured, when the response
text is absent or empty, or when no opening/closing tag pair exists.
`findSub` really is first occurrence. -/
theorem svg_generation_extraction (userKey envKey : Option String) :
    (truthyStr userKey = false → truthyStr envKey = false →
        ∀ resp, processResponse userKey envKey resp = .error keyErrorMsg)
    ∧ (truthyStr (if truthyStr userKey then userKey else envKey) = true →
        processResponse userKey envKey none = .error emptyErrorMsg
        ∧ processResponse userKey envKey (some "") = .error emptyErrorMsg)
    ∧ (∀ t : String, truthyStr (if truthyStr userKey then userKey else envKey) = true →
        ¬t = "" →
        ((svgOpenTag.isPrefixOf (cleanFences t.data)
            && svgCloseTag.isSuffixOf (cleanFences t.data)) = true →
          processResponse userKey envKey (some t)
            = .ok (String.mk (cleanFences t.data)))
        ∧ (∀ si ei,
            (svgOpenTag.isPrefixOf (cleanFences t.data)
              && svgCloseTag.isSuffixOf (cleanFences t.data)) = false →
            findSub svgOpenTag (cleanFences t.data) = some si →
            findSub svgCloseTag (cleanFences t.data) = some ei →
            processResponse userKey envKey (some t)
              = .ok (String.mk (jsSubstring (cleanFences t.data) si (ei + 6))))
        ∧ ((svgOpenTag.isPrefixOf (cleanFences t.data)
              && svgCloseTag.isSuffixOf (cleanFences t.data)) = false →
            (findSub svgOpenTag (cleanFences t.data) = none
              ∨ findSub svgCloseTag (cleanFences t.data) = none) →
            processResponse userKey envKey (some t) = .error invalidErrorMsg))
    ∧ (∀ (l : List Char) (i : Nat), findSub svgOpenTag l = some i →
        svgOpenTag.isPrefixOf (l.drop i) = true
        ∧ ∀ j < i, svgOpenTag.isPrefixOf (l.drop j) = false) := by
  refine ⟨?_, ?_, ?_, findSub_first svgOpenTag⟩
  · intro hu he resp
    have hk : truthyStr (if truthyStr userKey then userKey else envKey) = false := by
      rw [hu, if_neg (by simp [hu]), he]
    simp [processResponse, hk]
  · intro hk
    constructor
    · simp [processResponse, hk]
    · simp [processResponse, hk]
  · intro t hk hne
    refine ⟨?_, ?_, ?_⟩
    · intro hcond
      simp [processResponse, hk, hne, extractSvgText, hcond, Except.map]
    · intro si ei hcond hsi hei
      simp [processResponse, hk, hne, extractSvgText, hcond, hsi, hei, Except.map]
    · intro hcond hor
      cases hor with
      | inl hsi =>
          simp [processResponse, hk, hne, extractSvgText, hcond, hsi, Except.map]
      | inr hei =>
          cases hsi : findSub svgOpenTag (cleanFences t.data) with
          | none =>
              simp [processResponse, hk, hne, extractSvgText, hcond, hsi, Except.map]
          | some si =>
              simp [processResponse, hk, hne, extractSvgText, hcond, hsi, hei, Except.map]

/-- Witness for `svg_generation_extraction`: a response with junk before the
root tag is cut from the first `<svg` to the end of the first `</svg>`. -/
theorem svg_generation_extraction_witness :
    truthyStr (some "k") = true
    ∧ processResponse (some "k") none (some "x<svg>a</svg>") = .ok "<svg>a</svg>" := by
  refine ⟨by decide, ?_⟩
  have h := (((svg_generation_extraction (some "k") none).2.2.1 "x<svg>a</svg>"
      (by decide) (by decide)).2.1 1 7 (by decide) (by decide) (by decide))
  have he : String.mk (jsSubstring (cleanFences ("x<svg>a</svg>" : String).data) 1 (7 + 6))
      = "<svg>a</svg>" := by decide
  rw [he] at h
  exact h

end GeoTeacher
